import Mathlib

/-! # alaCarte: stylesheet manager, numeric tag selector and geodata serialisation

A shallow embedding of

* `src/server/stylesheet_manager.cpp` (class `StylesheetManager`),
* `src/server/selectors/tagsmallerequals_selector.cpp` (class `TagSmallerEqualsSelector`),
* `include/general/geodata.hpp` (class `Geodata`, member template `serialize`).

Conventions of the embedding.

* The class `Stylesheet` is declared outside these sources; it is a type parameter `σ`, and
  the stylesheet built by `makeFallbackStylesheet` is a parameter `fallback : σ`.
* A `std::shared_ptr<T>` is an `Option T`; `none` is the null pointer. A successful
  `Stylesheet::Load` and `makeFallbackStylesheet` return non-null pointers.
* An `int` is an `Int`; where the range of `int` matters it is written out.
* Calls into collaborators that are only declared in these sources (the parser
  `Stylesheet::Load`, the request manager, the tile cache, the directory monitor, the
  reader/writer lock) are recorded, in program order, as a list of `Effect`s returned next to
  the new state. Logging is not recorded.
* The parser is a function from the path it is asked to load (and the timeout) to the
  outcome of the load; one such function describes the style directory at the time of a call.
-/

namespace Alacarte

/-! ## File names (`boost::filesystem::path`, version 3 decomposition)

The functions below take the last component of a path, the file name. The directory iterator
and the directory monitor name files of the style folder, so `stem()` and `extension()` of
their paths are those of the file name. -/

/-- The `path::extension()` of a file name: empty for `.` and `..` and for a name without a
dot, otherwise the part of the name that starts at its last dot. -/
def extension (name : String) : String :=
  if name = "." ∨ name = ".." then ""
  else
    match name.data.reverse.span (fun c => c != '.') with
    | (_, []) => ""
    | (suffixRev, _ :: _) => String.mk ('.' :: suffixRev.reverse)

/-- The `path::stem()` of a file name: the name itself for `.` and `..` and for a name without
a dot, otherwise the part of the name before its last dot. -/
def stem (name : String) : String :=
  if name = "." ∨ name = ".." then name
  else
    match name.data.reverse.span (fun c => c != '.') with
    | (_, []) => name
    | (_, _ :: stemRev) => String.mk stemRev.reverse

/-- The test `s.find(".") != 0` of `std::string`: the string does not begin with a dot. -/
def findDotNotAtZero (s : String) : Bool :=
  match s.data with
  | [] => true
  | c :: _ => c != '.'

/-- The `operator/` of two paths as used for `stylesheetFolder / filename`: a separator is put
between the two parts unless the folder is empty or already ends in one. -/
def pathAppend (folder name : String) : String :=
  if folder = "" then name
  else if folder.data.getLast? = some '/' then folder ++ name
  else folder ++ "/" ++ name

/-! ## The name -> stylesheet map (`parsedStylesheets`) -/

/-- The association `parsedStylesheets`: file stems to shared pointers to stylesheets. Keys are
compared as strings (every key stored by the manager is a single path component). -/
abbrev StyleMap (σ : Type) := List (String × Option σ)

namespace StyleMap

variable {σ : Type}

/-- Lookup, as `find` compared with `end()`: `none` when the key has no entry. -/
def find? : StyleMap σ → String → Option (Option σ)
  | [], _ => none
  | (k, v) :: rest, key => if key = k then some v else find? rest key

/-- Removal of the entry of a key, as `erase(key)`. -/
def erase (m : StyleMap σ) (key : String) : StyleMap σ :=
  m.filter (fun kv => decide (kv.1 ≠ key))

/-- Insert-or-overwrite, as `m[key] = value`. -/
def assign (m : StyleMap σ) (key : String) (value : Option σ) : StyleMap σ :=
  (key, value) :: erase m key

/-- Reading `m[key]`: the stored pointer, and when the key has no entry a null pointer that
is inserted under the key. -/
def subscript (m : StyleMap σ) (key : String) : Option σ × StyleMap σ :=
  match find? m key with
  | some v => (v, m)
  | none => (none, (key, none) :: m)

end StyleMap

/-! ## Collaborators -/

/-- Image formats of a tile identifier; the manager only uses `PNG`. -/
inductive Format
  | PNG
  | SVG
  deriving DecidableEq, Repr

/-- A tile identifier as built by `TileIdentifier(x, y, zoom, stylesheetPath, format)`. -/
structure TileIdentifier where
  x : Int
  y : Int
  zoom : Int
  stylesheetPath : String
  imageFormat : Format
  deriving DecidableEq, Repr

/-- A meta tile identifier built from the tile identifier of its origin. -/
structure MetaIdentifier where
  origin : TileIdentifier
  deriving DecidableEq, Repr

/-- Calls that leave the manager, in program order. -/
inductive Effect
  /-- Construction of a `boost::unique_lock` on `stylesheetsLock`. -/
  | lockUnique
  /-- End of the scope of that `unique_lock`. -/
  | unlockUnique
  /-- Construction of a `boost::shared_lock` on `stylesheetsLock`. -/
  | lockShared
  /-- End of the scope of that `shared_lock`. -/
  | unlockShared
  /-- A call `Stylesheet::Load(path, geodata, timeout)`. -/
  | load (path : String) (timeout : Int)
  /-- A call `manager->enqueue(job)`. -/
  | enqueue (job : MetaIdentifier)
  /-- A call `manager->getCache()->deleteTiles(name)`. -/
  | deleteTiles (name : String)
  /-- A call `monitorService->add_directory(folder)`. -/
  | addDirectory (folder : String)
  /-- A call `monitorService->async_monitor(...)` that registers the event handler. -/
  | asyncMonitor
  /-- The start of the monitor thread. -/
  | startMonitorThread
  deriving DecidableEq, Repr

/-- How a call of `Stylesheet::Load` ends: it returns a stylesheet, or throws one of the two
exceptions that `onNewStylesheet` catches. -/
inductive LoadResult (σ : Type)
  | ok (stylesheet : σ)
  | parseException
  | timeoutException
  deriving DecidableEq, Repr

/-- The parser collaborator: path and timeout to the outcome of the load. -/
abbrev Loader (σ : Type) := String → Int → LoadResult σ

/-- An entry of the style directory as the directory iterator presents it: the file name of
`dir_iter->path()` and whether its status is that of a regular file. -/
structure DirEntry where
  name : String
  isRegularFile : Bool
  deriving DecidableEq, Repr

/-- The `boost::system::error_code` handed to the event handler. -/
inductive ErrorCode
  | success
  | operationAborted
  | other (value : Int)
  deriving DecidableEq, Repr

/-- Kinds of directory monitor events; `other` stands for every kind the handler has no case
for. -/
inductive EventType
  | added
  | removed
  | modified
  | other
  deriving DecidableEq, Repr

/-- A directory monitor event: its kind and the name of the file it is about. -/
structure DirMonitorEvent where
  type : EventType
  filename : String
  deriving DecidableEq, Repr

/-! ## `StylesheetManager` -/

/-- The members of `StylesheetManager` that its operations read or write: the style folder and
the parse timeout taken from the configuration, and the map. -/
structure StylesheetManager (σ : Type) where
  stylesheetFolder : String
  parseTimeout : Int
  parsedStylesheets : StyleMap σ

namespace StylesheetManager

variable {σ : Type}

/-- The constructor: the folder is read from the configuration, the map starts empty. -/
def new (stylesheetFolder : String) (parseTimeout : Int) : StylesheetManager σ :=
  { stylesheetFolder := stylesheetFolder, parseTimeout := parseTimeout, parsedStylesheets := [] }

/-- The method `hasStylesheet`. -/
def hasStylesheet (m : StylesheetManager σ) (path : String) : Bool × List Effect :=
  let entry := m.parsedStylesheets.find? path
  let contained := entry.isSome
  (contained, [Effect.lockShared, Effect.unlockShared])

/-- The method `getStylesheet`: the entry of `path` when there is one, otherwise the result of
reading `parsedStylesheets[".fallback"]`. -/
def getStylesheet (m : StylesheetManager σ) (path : String) :
    Option σ × StylesheetManager σ × List Effect :=
  match m.parsedStylesheets.find? path with
  | some second => (second, m, [Effect.lockShared, Effect.unlockShared])
  | none =>
    let r := m.parsedStylesheets.subscript ".fallback"
    (r.1, { m with parsedStylesheets := r.2 }, [Effect.lockShared, Effect.unlockShared])

/-- The method `onNewStylesheet`: load `stylesheetFolder / (stylesheet_path + ".mapcss")`; on a
parse or timeout exception return, otherwise store the stylesheet under `stylesheet_path` and
enqueue the tile `(0, 0, 0)` of that stylesheet. -/
def onNewStylesheet (Load : Loader σ) (m : StylesheetManager σ) (stylesheet_path : String) :
    StylesheetManager σ × List Effect :=
  let timeout := m.parseTimeout
  let new_filename := stylesheet_path ++ ".mapcss"
  let file := pathAppend m.stylesheetFolder new_filename
  match Load file timeout with
  | LoadResult.parseException => (m, [Effect.load file timeout])
  | LoadResult.timeoutException => (m, [Effect.load file timeout])
  | LoadResult.ok stylesheet =>
    ({ m with parsedStylesheets := m.parsedStylesheets.assign stylesheet_path (some stylesheet) },
      [Effect.load file timeout,
       Effect.enqueue ⟨TileIdentifier.mk 0 0 0 stylesheet_path Format.PNG⟩])

/-- The method `onRemovedStylesheet`: delete the tiles of the stylesheet from the cache, then
erase its entry. -/
def onRemovedStylesheet (m : StylesheetManager σ) (stylesheet_path : String) :
    StylesheetManager σ × List Effect :=
  ({ m with parsedStylesheets := m.parsedStylesheets.erase stylesheet_path },
    [Effect.deleteTiles stylesheet_path])

/-- The method `onFileSystemEvent`. With an error code nothing is done. Otherwise, for a
`.mapcss` file whose stem does not begin with a dot, the write lock is taken and the event is
dispatched on its kind; then the handler is registered again. -/
def onFileSystemEvent (Load : Loader σ) (m : StylesheetManager σ) (ec : ErrorCode)
    (ev : DirMonitorEvent) : StylesheetManager σ × List Effect :=
  if ec ≠ ErrorCode.success then (m, [])
  else
    if extension ev.filename = ".mapcss" ∧ findDotNotAtZero (stem ev.filename) = true then
      let path := stem ev.filename
      match ev.type with
      | EventType.added =>
        let r := onNewStylesheet Load m path
        (r.1, [Effect.lockUnique] ++ r.2 ++ [Effect.unlockUnique, Effect.asyncMonitor])
      | EventType.removed =>
        let r := onRemovedStylesheet m path
        (r.1, [Effect.lockUnique] ++ r.2 ++ [Effect.unlockUnique, Effect.asyncMonitor])
      | EventType.modified =>
        let r₁ := onRemovedStylesheet m path
        let r₂ := onNewStylesheet Load r₁.1 path
        (r₂.1, [Effect.lockUnique] ++ r₁.2 ++ r₂.2 ++ [Effect.unlockUnique, Effect.asyncMonitor])
      | EventType.other =>
        (m, [Effect.lockUnique, Effect.unlockUnique, Effect.asyncMonitor])
    else (m, [Effect.asyncMonitor])

/-- The loop of `startStylesheetObserving` over the directory: every regular file with the
extension `.mapcss` is handed, by its stem, to `onNewStylesheet`. -/
def scanDirectory (Load : Loader σ) :
    List DirEntry → StylesheetManager σ → StylesheetManager σ × List Effect
  | [], m => (m, [])
  | e :: rest, m =>
    if e.isRegularFile = true ∧ extension e.name = ".mapcss" then
      let r := onNewStylesheet Load m (stem e.name)
      let r' := scanDirectory Load rest r.1
      (r'.1, r.2 ++ r'.2)
    else scanDirectory Load rest m

/-- The method `startStylesheetObserving`: store the hard coded fallback stylesheet (the
non-null result `fallback` of `makeFallbackStylesheet`) under `.fallback`, take the write
lock, scan the directory, register the directory and the handler and start the monitor
thread. -/
def startStylesheetObserving (fallback : σ) (Load : Loader σ) (dir : List DirEntry)
    (m : StylesheetManager σ) : StylesheetManager σ × List Effect :=
  let m₁ := { m with parsedStylesheets := m.parsedStylesheets.assign ".fallback" (some fallback) }
  let r := scanDirectory Load dir m₁
  (r.1, [Effect.lockUnique] ++ r.2 ++
    [Effect.addDirectory m.stylesheetFolder, Effect.asyncMonitor, Effect.startMonitorThread,
     Effect.unlockUnique])

/-- The file that `onNewStylesheet` loads for a stylesheet name:
`stylesheetFolder / (stylesheet_path + ".mapcss")`. -/
def fileOf (m : StylesheetManager σ) (stylesheet_path : String) : String :=
  pathAppend m.stylesheetFolder (stylesheet_path ++ ".mapcss")

/-- Operations of the manager that other threads of the server invoke after start-up. -/
inductive Operation (σ : Type)
  | fileSystemEvent (Load : Loader σ) (ec : ErrorCode) (ev : DirMonitorEvent)
  | getStylesheet (path : String)
  | hasStylesheet (path : String)

/-- The manager after one operation. -/
def perform (m : StylesheetManager σ) : Operation σ → StylesheetManager σ
  | Operation.fileSystemEvent Load ec ev => (onFileSystemEvent Load m ec ev).1
  | Operation.getStylesheet path => (getStylesheet m path).2.1
  | Operation.hasStylesheet _ => m

/-- The manager after a finite sequence of operations. -/
def performAll (m : StylesheetManager σ) (ops : List (Operation σ)) : StylesheetManager σ :=
  ops.foldl perform m

end StylesheetManager

/-- The jobs handed to `manager->enqueue` among some effects. -/
def enqueuedJobs : List Effect → List MetaIdentifier
  | [] => []
  | Effect.enqueue job :: rest => job :: enqueuedJobs rest
  | _ :: rest => enqueuedJobs rest

/-- The stylesheet names handed to `deleteTiles` among some effects. -/
def deletedTiles : List Effect → List String
  | [] => []
  | Effect.deleteTiles name :: rest => name :: deletedTiles rest
  | _ :: rest => deletedTiles rest

/-! ## Geodata -/

/-- Identifier of a node: the offset of the node in its collection. -/
structure NodeId where
  raw : Nat
  deriving DecidableEq, Repr

/-- Identifier of a way. -/
structure WayId where
  raw : Nat
  deriving DecidableEq, Repr

/-- Identifier of a relation. -/
structure RelId where
  raw : Nat
  deriving DecidableEq, Repr

/-- The tag mapping of a feature: unique keys, string values. -/
abbrev TagMap := List (String × String)

/-- Lookup in a tag mapping, as `find` compared with `end()`. -/
def TagMap.find? : TagMap → String → Option String
  | [], _ => none
  | (k, v) :: rest, key => if key = k then some v else TagMap.find? rest key

/-- Modelled from the spec: the class `Node` is only forward declared in these sources; a
point feature has a fixed-precision coordinate and a tag mapping. -/
structure Node where
  lat : Int
  lon : Int
  tags : TagMap
  deriving DecidableEq, Repr

/-- Modelled from the spec: the class `Way` is only forward declared in these sources; a
bounded feature has an ordered sequence of node identifiers and a tag mapping. -/
structure Way where
  nodeIDs : List NodeId
  tags : TagMap
  deriving DecidableEq, Repr

/-- Modelled from the spec: the class `Relation` is only forward declared in these sources; a
group feature has member references by kind and a tag mapping. -/
structure Relation where
  nodeIDs : List NodeId
  wayIDs : List WayId
  tags : TagMap
  deriving DecidableEq, Repr

/-- The data members of `Geodata`. The three tree types are declared outside these sources and
are parameters. -/
structure Geodata (NodesTree WaysTree RelTree : Type) where
  ways : List Way
  nodes : List Node
  relations : List Relation
  nodesTree : NodesTree
  waysTree : WaysTree
  relTree : RelTree

/-- What an archive receives through `ar & member`. -/
inductive ArchiveItem (NodesTree WaysTree RelTree : Type)
  | nodes (value : List Node)
  | ways (value : List Way)
  | relations (value : List Relation)
  | nodesTree (value : NodesTree)
  | waysTree (value : WaysTree)
  | relTree (value : RelTree)
  deriving DecidableEq

/-- Whether an archive item is one of the three spatial index trees. -/
def ArchiveItem.isTree {NodesTree WaysTree RelTree : Type} :
    ArchiveItem NodesTree WaysTree RelTree → Bool
  | ArchiveItem.nodes _ => false
  | ArchiveItem.ways _ => false
  | ArchiveItem.relations _ => false
  | ArchiveItem.nodesTree _ => true
  | ArchiveItem.waysTree _ => true
  | ArchiveItem.relTree _ => true

namespace Geodata

variable {NodesTree WaysTree RelTree : Type}

/-- The member template `serialize(Archive& ar, const unsigned int version)` on a saving
archive: the members are written in the order of the six `ar & member` statements. -/
def serialize (g : Geodata NodesTree WaysTree RelTree)
    (ar : List (ArchiveItem NodesTree WaysTree RelTree)) (_version : Nat) :
    List (ArchiveItem NodesTree WaysTree RelTree) :=
  let ar := ar ++ [ArchiveItem.nodes g.nodes]
  let ar := ar ++ [ArchiveItem.ways g.ways]
  let ar := ar ++ [ArchiveItem.relations g.relations]
  let ar := ar ++ [ArchiveItem.nodesTree g.nodesTree]
  let ar := ar ++ [ArchiveItem.waysTree g.waysTree]
  let ar := ar ++ [ArchiveItem.relTree g.relTree]
  ar

/-- Modelled from the spec: `Geodata::getNode` is only declared in these sources; lookup is by
offset and fails for an identifier outside the collection. -/
def getNode (g : Geodata NodesTree WaysTree RelTree) (id : NodeId) : Option Node :=
  g.nodes.get? id.raw

/-- Modelled from the spec: `Geodata::getWay` is only declared in these sources; lookup is by
offset and fails for an identifier outside the collection. -/
def getWay (g : Geodata NodesTree WaysTree RelTree) (id : WayId) : Option Way :=
  g.ways.get? id.raw

/-- Modelled from the spec: `Geodata::getRelation` is only declared in these sources; lookup is
by offset and fails for an identifier outside the collection. -/
def getRelation (g : Geodata NodesTree WaysTree RelTree) (id : RelId) : Option Relation :=
  g.relations.get? id.raw

end Geodata

/-! ## Formatted extraction of an `int` from a string stream -/

/-- Largest value of `int`. -/
def INT_MAX : Int := 2147483647

/-- Smallest value of `int`. -/
def INT_MIN : Int := -2147483648

/-- The state flags of a stream that the selector can observe after an extraction. Reading
from a string buffer never sets `badbit`; a failed conversion sets `failbit`. -/
structure StreamState where
  badbit : Bool
  failbit : Bool
  deriving DecidableEq, Repr

/-- The method `bad()` of a stream: only `badbit` is inspected. -/
def StreamState.bad (s : StreamState) : Bool := s.badbit

/-- White space of the classic locale. -/
def isSpace (c : Char) : Bool :=
  c = ' ' || c = '\t' || c = '\n' || c = '\x0b' || c = '\x0c' || c = '\r'

/-- Value of a decimal digit character. -/
def digitValue (c : Char) : Nat := c.toNat - 48

/-- Value of a sequence of decimal digits, most significant first. -/
def digitsValue (ds : List Char) : Nat :=
  ds.foldl (fun acc c => 10 * acc + digitValue c) 0

/-- Splits an optional sign off the front of the input. -/
def takeSign : List Char → Bool × List Char
  | '-' :: rest => (true, rest)
  | '+' :: rest => (false, rest)
  | cs => (false, cs)

/-- The extraction `strstream >> tagvalue` into an `int` from a fresh string stream over
`text`, with the default flags (skip white space, decimal). Leading white space is skipped, an
optional sign and the longest run of digits are read. Without a digit the value stored is `0`
and `failbit` is set; a value outside the range of `int` is stored as the nearest bound and
`failbit` is set. The result is the stored value and the stream state. -/
def extractInt (text : String) : Int × StreamState :=
  let cs := text.data.dropWhile isSpace
  let signed := takeSign cs
  let ds := signed.2.takeWhile Char.isDigit
  if ds = [] then (0, { badbit := false, failbit := true })
  else
    let magnitude : Int := (digitsValue ds : Nat)
    let v : Int := if signed.1 then -magnitude else magnitude
    if v > INT_MAX then (INT_MAX, { badbit := false, failbit := true })
    else if v < INT_MIN then (INT_MIN, { badbit := false, failbit := true })
    else (v, { badbit := false, failbit := false })

/-! ## `TagSmallerEqualsSelector` -/

/-- A `RenderAttributes*`: the address of the attributes the chain writes to. -/
structure RenderAttributesPtr where
  address : Nat
  deriving DecidableEq, Repr

/-- A call made on the `next` selector. -/
inductive NextCall
  | matchNode (nodeID : NodeId) (ti : Option TileIdentifier) (attributes : RenderAttributesPtr)
  | matchWay (wayID : WayId) (ti : Option TileIdentifier) (attributes : RenderAttributesPtr)
  | matchRelation (relID : RelId) (ti : Option TileIdentifier) (attributes : RenderAttributesPtr)
  deriving DecidableEq, Repr

/-- The members `tag` and `value` of the selector. -/
structure TagSmallerEqualsSelector where
  tag : String
  value : Int
  deriving DecidableEq, Repr

namespace TagSmallerEqualsSelector

variable {NodesTree WaysTree RelTree : Type}

/-- The method `matchNode`. The result is the list of calls made on `next`, or `none` when the
node lookup fails. -/
def matchNode (sel : TagSmallerEqualsSelector) (geodata : Geodata NodesTree WaysTree RelTree)
    (nodeID : NodeId) (ti : Option TileIdentifier) (attributes : RenderAttributesPtr) :
    Option (List NextCall) :=
  match geodata.getNode nodeID with
  | none => none
  | some node =>
    match node.tags.find? sel.tag with
    | none => some []
    | some second =>
      let r := extractInt second
      let tagvalue := r.1
      let strstream := r.2
      if !strstream.bad && decide (tagvalue ≤ sel.value) then
        some [NextCall.matchNode nodeID ti attributes]
      else some []

/-- The method `matchWay`. -/
def matchWay (sel : TagSmallerEqualsSelector) (geodata : Geodata NodesTree WaysTree RelTree)
    (wayID : WayId) (ti : Option TileIdentifier) (attributes : RenderAttributesPtr) :
    Option (List NextCall) :=
  match geodata.getWay wayID with
  | none => none
  | some way =>
    match way.tags.find? sel.tag with
    | none => some []
    | some second =>
      let r := extractInt second
      let tagvalue := r.1
      let strstream := r.2
      if !strstream.bad && decide (tagvalue ≤ sel.value) then
        some [NextCall.matchWay wayID ti attributes]
      else some []

/-- The method `matchRelation`. -/
def matchRelation (sel : TagSmallerEqualsSelector) (geodata : Geodata NodesTree WaysTree RelTree)
    (relID : RelId) (ti : Option TileIdentifier) (attributes : RenderAttributesPtr) :
    Option (List NextCall) :=
  match geodata.getRelation relID with
  | none => none
  | some relation =>
    match relation.tags.find? sel.tag with
    | none => some []
    | some second =>
      let r := extractInt second
      let tagvalue := r.1
      let strstream := r.2
      if !strstream.bad && decide (tagvalue ≤ sel.value) then
        some [NextCall.matchRelation relID ti attributes]
      else some []

end TagSmallerEqualsSelector

/-! ## Decimal text of an integer -/

/-- The decimal digits of a natural number, most significant first; `0` is written `0`. -/
def natText (k : Nat) : List Char :=
  if k = 0 then ['0'] else (Nat.digits 10 k).reverse.map Nat.digitChar

/-- The decimal text of an integer: a minus sign for a negative number, then the digits of
its absolute value. -/
def decimalText (n : Int) : String :=
  String.mk (if n < 0 then '-' :: natText n.natAbs else natText n.natAbs)

/-! ## Sample inputs -/

/-- A manager right after start-up on the folder `styles` that holds the single file
`a.mapcss`, which loads to the stylesheet `1`; the fallback stylesheet is `0` and the parse
timeout 750. -/
def sampleManager : StylesheetManager Nat :=
  (StylesheetManager.startStylesheetObserving 0 (fun _ _ => LoadResult.ok 1)
    [⟨"a.mapcss", true⟩] (StylesheetManager.new "styles" 750)).1

/-- A listing of the folder `styles`: two files that load, between a file with a syntax
error, a file that is no stylesheet, a file whose load times out and a directory. -/
def sampleDirectory : List DirEntry :=
  [⟨"broken.mapcss", true⟩, ⟨"a.mapcss", true⟩, ⟨"notes.txt", true⟩, ⟨"slow.mapcss", true⟩,
   ⟨"dir.mapcss", false⟩, ⟨"b.mapcss", true⟩]

/-- The outcomes of loading the files of `sampleDirectory`. -/
def sampleLoader : Loader Nat := fun path _ =>
  if path = "styles/a.mapcss" then LoadResult.ok 1
  else if path = "styles/b.mapcss" then LoadResult.ok 2
  else if path = "styles/slow.mapcss" then LoadResult.timeoutException
  else LoadResult.parseException

/-- A data set with one node, one way and one relation; the trees list the indexed
identifiers. -/
def sampleGeodata : Geodata (List NodeId) (List WayId) (List RelId) :=
  { ways := [⟨[⟨0⟩], [("highway", "residential"), ("layer", "abc"), ("level", "not-a-number")]⟩]
    nodes := [⟨490000000, 84000000, [("level", "not-a-number")]⟩]
    relations := [⟨[], [⟨0⟩], [("level", "not-a-number")]⟩]
    nodesTree := [⟨0⟩]
    waysTree := [⟨0⟩]
    relTree := [⟨0⟩] }

/-- A tile of the stylesheet `a`. -/
def sampleTile : TileIdentifier := ⟨3, 5, 4, "a", Format.PNG⟩

/-! ## Facts about the map -/

namespace StyleMap

variable {σ : Type}

theorem find?_erase (m : StyleMap σ) (key k : String) :
    (m.erase key).find? k = if k = key then none else m.find? k := by
  induction m with
  | nil => simp [erase, find?]
  | cons kv rest ih =>
    obtain ⟨a, v⟩ := kv
    unfold erase at ih ⊢
    by_cases ha : a = key
    · subst ha
      simp only [List.filter, ne_eq, not_true_eq_false, decide_False, find?]
      rw [ih]
      by_cases hk : k = a <;> simp [hk]
    · simp only [List.filter, ne_eq, ha, not_false_eq_true, decide_True, find?]
      rw [ih]
      by_cases hk : k = key
      · have : k ≠ a := by rw [hk]; exact fun h => ha h.symm
        simp [hk, this]
        intro h; exact absurd h.symm ha
      · simp [hk]

theorem find?_assign (m : StyleMap σ) (key : String) (value : Option σ) (k : String) :
    (m.assign key value).find? k = if k = key then some value else m.find? k := by
  unfold assign
  simp only [find?]
  by_cases hk : k = key
  · simp [hk]
  · simp [hk, find?_erase]

end StyleMap

/-! ## Facts about file names -/

theorem data_append_mapcss (n : String) :
    (n ++ ".mapcss").data.reverse = 's' :: 's' :: 'c' :: 'p' :: 'a' :: 'm' :: '.' :: n.data.reverse := by
  simp [String.data_append]

theorem append_mapcss_ne_dots (n : String) : ¬ (n ++ ".mapcss" = "." ∨ n ++ ".mapcss" = "..") := by
  intro h
  have hlen : (n ++ ".mapcss").length ≤ 2 := by
    rcases h with h | h <;> rw [h] <;> decide
  rw [String.length_append] at hlen
  have : (".mapcss" : String).length = 7 := by decide
  omega

/-- The stem of `n.mapcss` is `n`. -/
theorem stem_append_mapcss (n : String) : stem (n ++ ".mapcss") = n := by
  unfold stem
  rw [if_neg (append_mapcss_ne_dots n), data_append_mapcss]
  simp [List.span, List.span.loop]

/-- The extension of `n.mapcss` is `.mapcss`. -/
theorem extension_append_mapcss (n : String) : extension (n ++ ".mapcss") = ".mapcss" := by
  unfold extension
  rw [if_neg (append_mapcss_ne_dots n), data_append_mapcss]
  simp [List.span, List.span.loop]

/-- A name that passes the hidden-file test is not the reserved key. -/
theorem ne_fallback_of_findDotNotAtZero {s : String} (h : findDotNotAtZero s = true) :
    s ≠ ".fallback" := by
  intro hs
  rw [hs] at h
  exact absurd h (by decide)

/-- A name with the extension `.mapcss` is its stem followed by `.mapcss`. -/
theorem stem_append_of_extension {name : String} (h : extension name = ".mapcss") :
    stem name ++ ".mapcss" = name := by
  unfold extension at h
  unfold stem
  by_cases hd : name = "." ∨ name = ".."
  · rw [if_pos hd] at h
    exact absurd h (by decide)
  · rw [if_neg hd] at h
    rw [if_neg hd]
    have hspan := List.span_eq_take_drop (fun c => c != '.') name.data.reverse
    have happ := List.takeWhile_append_dropWhile (fun c => c != '.') name.data.reverse
    rw [hspan] at h ⊢
    cases hdw : List.dropWhile (fun c => c != '.') name.data.reverse with
    | nil =>
      rw [hdw] at h
      simp only at h
      exact absurd h (by decide)
    | cons d st =>
      rw [hdw] at h happ
      simp only at h ⊢
      have hhead : (fun c => c != '.') d = false := by
        have := List.head?_dropWhile_not (fun c => c != '.') name.data.reverse
        rw [hdw] at this
        simpa using this
      have hdot : d = '.' := by simpa using hhead
      have hsfx : (List.takeWhile (fun c => c != '.') name.data.reverse).reverse
          = ['m', 'a', 'p', 'c', 's', 's'] := by
        have := congrArg String.data h
        simpa using this
      apply String.ext
      have hrev : name.data = st.reverse ++ d :: (List.takeWhile (fun c => c != '.') name.data.reverse).reverse := by
        have := congrArg List.reverse happ
        simpa using this.symm
      rw [String.data_append, hrev, hsfx, hdot]

/-! ## Facts about the manager -/

namespace StylesheetManager

variable {σ : Type}

theorem onNewStylesheet_find? (Load : Loader σ) (m : StylesheetManager σ) (key k : String) :
    (onNewStylesheet Load m key).1.parsedStylesheets.find? k =
      match Load (fileOf m key) m.parseTimeout with
      | LoadResult.ok s => if k = key then some (some s) else m.parsedStylesheets.find? k
      | _ => m.parsedStylesheets.find? k := by
  unfold onNewStylesheet fileOf
  cases h : Load (pathAppend m.stylesheetFolder (key ++ ".mapcss")) m.parseTimeout <;>
    simp [h, StyleMap.find?_assign]

theorem onNewStylesheet_config (Load : Loader σ) (m : StylesheetManager σ) (key : String) :
    (onNewStylesheet Load m key).1.stylesheetFolder = m.stylesheetFolder ∧
      (onNewStylesheet Load m key).1.parseTimeout = m.parseTimeout := by
  unfold onNewStylesheet
  cases h : Load (pathAppend m.stylesheetFolder (key ++ ".mapcss")) m.parseTimeout <;> simp [h]

theorem onRemovedStylesheet_find? (m : StylesheetManager σ) (key k : String) :
    (onRemovedStylesheet m key).1.parsedStylesheets.find? k =
      if k = key then none else m.parsedStylesheets.find? k := by
  simp [onRemovedStylesheet, StyleMap.find?_erase]

/-- An entry under another key than the one of the event is left as it is by the handler. -/
theorem onFileSystemEvent_find?_of_ne (Load : Loader σ) (m : StylesheetManager σ)
    (ec : ErrorCode) (ev : DirMonitorEvent) (k : String) (hk : k ≠ stem ev.filename) :
    (onFileSystemEvent Load m ec ev).1.parsedStylesheets.find? k = m.parsedStylesheets.find? k := by
  unfold onFileSystemEvent
  by_cases hec : ec ≠ ErrorCode.success
  · rw [if_pos hec]
  · rw [if_neg hec]
    by_cases hg : extension ev.filename = ".mapcss" ∧ findDotNotAtZero (stem ev.filename) = true
    · rw [if_pos hg]
      cases ev.type
      · simp only [onNewStylesheet_find?]
        split <;> simp [hk]
      · simp only [onRemovedStylesheet_find?]
        simp [hk]
      · simp only [onNewStylesheet_find?, onRemovedStylesheet_find?]
        split <;> simp [hk]
      · rfl
    · rw [if_neg hg]

/-- The handler never touches the entry of the reserved key. -/
theorem onFileSystemEvent_fallback (Load : Loader σ) (m : StylesheetManager σ)
    (ec : ErrorCode) (ev : DirMonitorEvent) :
    (onFileSystemEvent Load m ec ev).1.parsedStylesheets.find? ".fallback"
      = m.parsedStylesheets.find? ".fallback" := by
  by_cases hg : extension ev.filename = ".mapcss" ∧ findDotNotAtZero (stem ev.filename) = true
  · exact onFileSystemEvent_find?_of_ne Load m ec ev ".fallback"
      (fun h => ne_fallback_of_findDotNotAtZero hg.2 h.symm)
  · unfold onFileSystemEvent
    by_cases hec : ec ≠ ErrorCode.success
    · rw [if_pos hec]
    · rw [if_neg hec, if_neg hg]

/-- A lookup leaves the manager as it is when the reserved entry is present. -/
theorem getStylesheet_state (m : StylesheetManager σ) (path : String) (s : Option σ)
    (h : m.parsedStylesheets.find? ".fallback" = some s) :
    (getStylesheet m path).2.1 = m := by
  unfold getStylesheet
  cases hp : m.parsedStylesheets.find? path with
  | some v => rfl
  | none => simp [StyleMap.subscript, h]

/-- The directory scan keeps a non-null entry under any key that has one. -/
theorem scanDirectory_some (Load : Loader σ) (dir : List DirEntry) (k : String) :
    ∀ m : StylesheetManager σ, (∃ s, m.parsedStylesheets.find? k = some (some s)) →
      ∃ s, (scanDirectory Load dir m).1.parsedStylesheets.find? k = some (some s) := by
  induction dir with
  | nil => intro m h; simpa [scanDirectory] using h
  | cons e rest ih =>
    intro m h
    unfold scanDirectory
    by_cases he : e.isRegularFile = true ∧ extension e.name = ".mapcss"
    · rw [if_pos he]
      apply ih
      rw [onNewStylesheet_find?]
      obtain ⟨s, hs⟩ := h
      split
      · split
        · exact ⟨_, rfl⟩
        · exact ⟨s, hs⟩
      · exact ⟨s, hs⟩
    · rw [if_neg he]
      exact ih m h

/-- The reserved entry is present and non-null right after start-up. -/
theorem startStylesheetObserving_fallback (fallback : σ) (Load : Loader σ) (dir : List DirEntry)
    (m : StylesheetManager σ) :
    ∃ s, (startStylesheetObserving fallback Load dir m).1.parsedStylesheets.find? ".fallback"
      = some (some s) := by
  unfold startStylesheetObserving
  apply scanDirectory_some
  exact ⟨fallback, by simp [StyleMap.find?_assign]⟩

/-- One operation leaves the reserved entry as it is. -/
theorem perform_fallback (m : StylesheetManager σ) (op : Operation σ) (s : Option σ)
    (h : m.parsedStylesheets.find? ".fallback" = some s) :
    (perform m op).parsedStylesheets.find? ".fallback" = some s := by
  cases op with
  | fileSystemEvent Load ec ev => simpa [perform, onFileSystemEvent_fallback] using h
  | getStylesheet path => simpa [perform, getStylesheet_state m path s h] using h
  | hasStylesheet path => simpa [perform] using h

/-- A sequence of operations leaves the reserved entry as it is. -/
theorem performAll_fallback (ops : List (Operation σ)) :
    ∀ (m : StylesheetManager σ) (s : Option σ),
      m.parsedStylesheets.find? ".fallback" = some s →
      (performAll m ops).parsedStylesheets.find? ".fallback" = some s := by
  induction ops with
  | nil => intro m s h; simpa [performAll] using h
  | cons op rest ih =>
    intro m s h
    have := ih (perform m op) s (perform_fallback m op s h)
    simpa [performAll] using this

/-- The handler on an `added` event for `n.mapcss`, `n` not hidden. -/
theorem onFileSystemEvent_added (Load : Loader σ) (m : StylesheetManager σ) (n : String)
    (hn : findDotNotAtZero n = true) :
    onFileSystemEvent Load m ErrorCode.success ⟨EventType.added, n ++ ".mapcss"⟩ =
      ((onNewStylesheet Load m n).1,
        [Effect.lockUnique] ++ (onNewStylesheet Load m n).2 ++
          [Effect.unlockUnique, Effect.asyncMonitor]) := by
  simp [onFileSystemEvent, stem_append_mapcss, extension_append_mapcss, hn]

/-- The handler on a `removed` event for `n.mapcss`, `n` not hidden. -/
theorem onFileSystemEvent_removed (Load : Loader σ) (m : StylesheetManager σ) (n : String)
    (hn : findDotNotAtZero n = true) :
    onFileSystemEvent Load m ErrorCode.success ⟨EventType.removed, n ++ ".mapcss"⟩ =
      ((onRemovedStylesheet m n).1,
        [Effect.lockUnique] ++ (onRemovedStylesheet m n).2 ++
          [Effect.unlockUnique, Effect.asyncMonitor]) := by
  simp [onFileSystemEvent, stem_append_mapcss, extension_append_mapcss, hn]

/-- The handler on a `modified` event for `n.mapcss`, `n` not hidden. -/
theorem onFileSystemEvent_modified (Load : Loader σ) (m : StylesheetManager σ) (n : String)
    (hn : findDotNotAtZero n = true) :
    onFileSystemEvent Load m ErrorCode.success ⟨EventType.modified, n ++ ".mapcss"⟩ =
      ((onNewStylesheet Load (onRemovedStylesheet m n).1 n).1,
        [Effect.lockUnique] ++ (onRemovedStylesheet m n).2 ++
          (onNewStylesheet Load (onRemovedStylesheet m n).1 n).2 ++
          [Effect.unlockUnique, Effect.asyncMonitor]) := by
  simp [onFileSystemEvent, stem_append_mapcss, extension_append_mapcss, hn]

/-- What `onNewStylesheet` returns when the load succeeds. -/
theorem onNewStylesheet_ok (Load : Loader σ) (m : StylesheetManager σ) (n : String) (s : σ)
    (h : Load (fileOf m n) m.parseTimeout = LoadResult.ok s) :
    onNewStylesheet Load m n =
      ({ m with parsedStylesheets := m.parsedStylesheets.assign n (some s) },
        [Effect.load (fileOf m n) m.parseTimeout,
         Effect.enqueue ⟨TileIdentifier.mk 0 0 0 n Format.PNG⟩]) := by
  unfold fileOf at h
  simp [onNewStylesheet, fileOf, h]

/-- What `onNewStylesheet` returns when the load throws. -/
theorem onNewStylesheet_failed (Load : Loader σ) (m : StylesheetManager σ) (n : String)
    (h : Load (fileOf m n) m.parseTimeout = LoadResult.parseException ∨
      Load (fileOf m n) m.parseTimeout = LoadResult.timeoutException) :
    onNewStylesheet Load m n = (m, [Effect.load (fileOf m n) m.parseTimeout]) := by
  unfold fileOf at h
  rcases h with h | h <;> simp [onNewStylesheet, fileOf, h]

/-- The directory scan does not change the configuration. -/
theorem scanDirectory_config (Load : Loader σ) (dir : List DirEntry) :
    ∀ m : StylesheetManager σ,
      (scanDirectory Load dir m).1.stylesheetFolder = m.stylesheetFolder ∧
        (scanDirectory Load dir m).1.parseTimeout = m.parseTimeout := by
  induction dir with
  | nil => intro m; simp [scanDirectory]
  | cons e rest ih =>
    intro m
    unfold scanDirectory
    by_cases he : e.isRegularFile = true ∧ extension e.name = ".mapcss"
    · rw [if_pos he]
      have h₁ := ih (onNewStylesheet Load m (stem e.name)).1
      have h₂ := onNewStylesheet_config Load m (stem e.name)
      exact ⟨h₁.1.trans h₂.1, h₁.2.trans h₂.2⟩
    · rw [if_neg he]
      exact ih m

/-- A name whose file loads to `s` and that is bound to `s` stays bound to `s` during the
scan. -/
theorem scanDirectory_stable (Load : Loader σ) (dir : List DirEntry) (k : String) (s : σ) :
    ∀ m : StylesheetManager σ, Load (fileOf m k) m.parseTimeout = LoadResult.ok s →
      m.parsedStylesheets.find? k = some (some s) →
      (scanDirectory Load dir m).1.parsedStylesheets.find? k = some (some s) := by
  induction dir with
  | nil => intro m _ h; simpa [scanDirectory] using h
  | cons e rest ih =>
    intro m hl h
    unfold scanDirectory
    by_cases he : e.isRegularFile = true ∧ extension e.name = ".mapcss"
    · rw [if_pos he]
      have hc := onNewStylesheet_config Load m (stem e.name)
      apply ih
      · unfold fileOf at hl ⊢
        rw [hc.1, hc.2]
        exact hl
      · rw [onNewStylesheet_find?]
        by_cases hk : k = stem e.name
        · subst hk
          rw [hl]
          simp
        · split <;> simp [hk, h]
    · rw [if_neg he]
      exact ih m hl h

/-- A scanned file that loads to `s` ends up bound to `s` under its stem. -/
theorem scanDirectory_loaded (Load : Loader σ) (dir : List DirEntry) (k : String) (s : σ) :
    ∀ m : StylesheetManager σ, Load (fileOf m k) m.parseTimeout = LoadResult.ok s →
      (∃ e ∈ dir, e.isRegularFile = true ∧ extension e.name = ".mapcss" ∧ stem e.name = k) →
      (scanDirectory Load dir m).1.parsedStylesheets.find? k = some (some s) := by
  induction dir with
  | nil => intro m _ h; simp at h
  | cons e rest ih =>
    intro m hl hex
    unfold scanDirectory
    by_cases he : e.isRegularFile = true ∧ extension e.name = ".mapcss"
    · rw [if_pos he]
      have hc := onNewStylesheet_config Load m (stem e.name)
      have hl' : Load (fileOf (onNewStylesheet Load m (stem e.name)).1 k)
          (onNewStylesheet Load m (stem e.name)).1.parseTimeout = LoadResult.ok s := by
        unfold fileOf at hl ⊢
        rw [hc.1, hc.2]
        exact hl
      by_cases hk : stem e.name = k
      · apply scanDirectory_stable Load rest k s _ hl'
        rw [onNewStylesheet_find?, hk, hl]
        simp
      · apply ih _ hl'
        obtain ⟨e', he', hq⟩ := hex
        rcases List.mem_cons.mp he' with rfl | hmem
        · exact absurd hq.2.2 hk
        · exact ⟨e', hmem, hq⟩
    · rw [if_neg he]
      apply ih m hl
      obtain ⟨e', he', hq⟩ := hex
      rcases List.mem_cons.mp he' with rfl | hmem
      · exact absurd ⟨hq.1, hq.2.1⟩ he
      · exact ⟨e', hmem, hq⟩

/-- A name whose file does not load is left as it is by the scan. -/
theorem scanDirectory_failed (Load : Loader σ) (dir : List DirEntry) (k : String) :
    ∀ m : StylesheetManager σ, (∀ s, Load (fileOf m k) m.parseTimeout ≠ LoadResult.ok s) →
      (scanDirectory Load dir m).1.parsedStylesheets.find? k = m.parsedStylesheets.find? k := by
  induction dir with
  | nil => intro m _; simp [scanDirectory]
  | cons e rest ih =>
    intro m hl
    unfold scanDirectory
    by_cases he : e.isRegularFile = true ∧ extension e.name = ".mapcss"
    · rw [if_pos he]
      have hc := onNewStylesheet_config Load m (stem e.name)
      have hl' : ∀ s, Load (fileOf (onNewStylesheet Load m (stem e.name)).1 k)
          (onNewStylesheet Load m (stem e.name)).1.parseTimeout ≠ LoadResult.ok s := by
        unfold fileOf at hl ⊢
        rw [hc.1, hc.2]
        exact hl
      rw [ih _ hl', onNewStylesheet_find?]
      by_cases hk : k = stem e.name
      · subst hk
        split
        · rename_i s hs
          exact absurd hs (hl s)
        · rfl
      · split <;> simp [hk]
    · rw [if_neg he]
      exact ih m hl

/-- A name that no scanned file has as its stem is left as it is by the scan. -/
theorem scanDirectory_untouched (Load : Loader σ) (dir : List DirEntry) (k : String) :
    ∀ m : StylesheetManager σ,
      (∀ e ∈ dir, e.isRegularFile = true → extension e.name = ".mapcss" → stem e.name ≠ k) →
      (scanDirectory Load dir m).1.parsedStylesheets.find? k = m.parsedStylesheets.find? k := by
  induction dir with
  | nil => intro m _; simp [scanDirectory]
  | cons e rest ih =>
    intro m hno
    have hrest : ∀ e' ∈ rest, e'.isRegularFile = true → extension e'.name = ".mapcss" →
        stem e'.name ≠ k := fun e' he' => hno e' (List.mem_cons_of_mem _ he')
    unfold scanDirectory
    by_cases he : e.isRegularFile = true ∧ extension e.name = ".mapcss"
    · rw [if_pos he, ih _ hrest, onNewStylesheet_find?]
      have hk : k ≠ stem e.name := fun h => hno e (List.mem_cons_self _ _) he.1 he.2 h.symm
      split <;> simp [hk]
    · rw [if_neg he]
      exact ih m hrest

end StylesheetManager

/-! ## The claims about the stylesheet manager -/

section ManagerClaims

open StylesheetManager

variable {σ : Type}

/-- C1: in every manager state reached by `startStylesheetObserving` followed by any finite
sequence of operations, the key `.fallback` holds a non-null stylesheet `s`; `getStylesheet`
returns `s` for every name without an entry and the stored entry for every name that has one,
and it leaves the manager as it is. -/
theorem getStylesheet_after_start (fallback : σ) (Load : Loader σ) (dir : List DirEntry)
    (m₀ : StylesheetManager σ) (ops : List (Operation σ)) (name : String) :
    ∃ s : σ,
      (performAll (startStylesheetObserving fallback Load dir m₀).1 ops).parsedStylesheets.find?
          ".fallback" = some (some s) ∧
      ((performAll (startStylesheetObserving fallback Load dir m₀).1 ops).parsedStylesheets.find?
          name = none →
        (getStylesheet (performAll (startStylesheetObserving fallback Load dir m₀).1 ops)
          name).1 = some s) ∧
      (∀ entry : Option σ,
        (performAll (startStylesheetObserving fallback Load dir m₀).1 ops).parsedStylesheets.find?
          name = some entry →
        (getStylesheet (performAll (startStylesheetObserving fallback Load dir m₀).1 ops)
          name).1 = entry) ∧
      (getStylesheet (performAll (startStylesheetObserving fallback Load dir m₀).1 ops)
          name).2.1 = performAll (startStylesheetObserving fallback Load dir m₀).1 ops := by
  obtain ⟨s, hs⟩ := startStylesheetObserving_fallback fallback Load dir m₀
  have hM := performAll_fallback ops _ _ hs
  refine ⟨s, hM, ?_, ?_, getStylesheet_state _ name _ hM⟩
  · intro hnone
    simp [getStylesheet, hnone, StyleMap.subscript, hM]
  · intro entry hentry
    simp [getStylesheet, hentry]

/-- C4: the reserved entry `.fallback` is present, with a non-null stylesheet, right after
`startStylesheetObserving` for any directory listing and any load outcomes, and after every
finite sequence of operations that follows; the event handler, for any loader, error code and
event, leaves the entry under `.fallback` as it was. -/
theorem fallback_always_present (fallback : σ) (Load : Loader σ) (dir : List DirEntry)
    (m₀ : StylesheetManager σ) (ops : List (Operation σ)) :
    (∃ s : σ, (startStylesheetObserving fallback Load dir m₀).1.parsedStylesheets.find?
        ".fallback" = some (some s)) ∧
    (∃ s : σ,
      (performAll (startStylesheetObserving fallback Load dir m₀).1 ops).parsedStylesheets.find?
        ".fallback" = some (some s)) ∧
    (∀ (m : StylesheetManager σ) (Load₁ : Loader σ) (ec : ErrorCode) (ev : DirMonitorEvent),
      (onFileSystemEvent Load₁ m ec ev).1.parsedStylesheets.find? ".fallback"
        = m.parsedStylesheets.find? ".fallback") := by
  obtain ⟨s, hs⟩ := startStylesheetObserving_fallback fallback Load dir m₀
  exact ⟨⟨s, hs⟩, ⟨s, performAll_fallback ops _ _ hs⟩,
    fun m Load₁ ec ev => onFileSystemEvent_fallback Load₁ m ec ev⟩

/-- C6: an `added` event for a file `n.mapcss` that is not hidden. When the load returns `s`,
the map afterwards binds `n` to `s` and every other name as before, and exactly one job is
enqueued, the tile `(0, 0, 0)` of stylesheet `n`. When the load throws a parse exception (or
times out), the manager is unchanged and no job is enqueued. -/
theorem added_event (Load : Loader σ) (m : StylesheetManager σ) (n : String)
    (hn : findDotNotAtZero n = true) :
    (∀ s : σ, Load (fileOf m n) m.parseTimeout = LoadResult.ok s →
      (∀ k : String,
        (onFileSystemEvent Load m ErrorCode.success
          ⟨EventType.added, n ++ ".mapcss"⟩).1.parsedStylesheets.find? k
          = if k = n then some (some s) else m.parsedStylesheets.find? k) ∧
      enqueuedJobs (onFileSystemEvent Load m ErrorCode.success
          ⟨EventType.added, n ++ ".mapcss"⟩).2
        = [⟨TileIdentifier.mk 0 0 0 n Format.PNG⟩]) ∧
    (Load (fileOf m n) m.parseTimeout = LoadResult.parseException ∨
        Load (fileOf m n) m.parseTimeout = LoadResult.timeoutException →
      (onFileSystemEvent Load m ErrorCode.success ⟨EventType.added, n ++ ".mapcss"⟩).1 = m ∧
      enqueuedJobs (onFileSystemEvent Load m ErrorCode.success
          ⟨EventType.added, n ++ ".mapcss"⟩).2 = []) := by
  rw [onFileSystemEvent_added Load m n hn]
  constructor
  · intro s hs
    rw [onNewStylesheet_ok Load m n s hs]
    exact ⟨fun k => StyleMap.find?_assign _ _ _ _, by simp [enqueuedJobs]⟩
  · intro hfail
    rw [onNewStylesheet_failed Load m n hfail]
    exact ⟨rfl, by simp [enqueuedJobs]⟩

/-- C7: a `removed` event for a file `n.mapcss` that is not hidden. The map afterwards has no
entry for `n` and every other name, the reserved `.fallback` among them, as before; the tile
cache receives exactly one `deleteTiles` call, for `n`. -/
theorem removed_event (Load : Loader σ) (m : StylesheetManager σ) (n : String)
    (hn : findDotNotAtZero n = true) :
    (∀ k : String,
      (onFileSystemEvent Load m ErrorCode.success
        ⟨EventType.removed, n ++ ".mapcss"⟩).1.parsedStylesheets.find? k
        = if k = n then none else m.parsedStylesheets.find? k) ∧
    (onFileSystemEvent Load m ErrorCode.success
        ⟨EventType.removed, n ++ ".mapcss"⟩).1.parsedStylesheets.find? ".fallback"
      = m.parsedStylesheets.find? ".fallback" ∧
    deletedTiles (onFileSystemEvent Load m ErrorCode.success
        ⟨EventType.removed, n ++ ".mapcss"⟩).2 = [n] := by
  refine ⟨?_, onFileSystemEvent_fallback _ _ _ _, ?_⟩
  · rw [onFileSystemEvent_removed Load m n hn]
    exact fun k => onRemovedStylesheet_find? m n k
  · rw [onFileSystemEvent_removed Load m n hn]
    simp [onRemovedStylesheet, deletedTiles]

/-- C3, as amended: a `modified` event for a file `n.mapcss` that is not hidden, whose load
times out or throws a parse exception, leaves no entry for `n` (a previous version is
evicted and its tiles are deleted from the cache), whether or not `n` had an entry before;
every other name is bound as before. -/
theorem modified_event_failed_load (Load : Loader σ) (m : StylesheetManager σ) (n : String)
    (hn : findDotNotAtZero n = true)
    (hfail : Load (fileOf m n) m.parseTimeout = LoadResult.parseException ∨
      Load (fileOf m n) m.parseTimeout = LoadResult.timeoutException) :
    (∀ k : String,
      (onFileSystemEvent Load m ErrorCode.success
        ⟨EventType.modified, n ++ ".mapcss"⟩).1.parsedStylesheets.find? k
        = if k = n then none else m.parsedStylesheets.find? k) ∧
    (onFileSystemEvent Load m ErrorCode.success ⟨EventType.modified, n ++ ".mapcss"⟩).2
      = [Effect.lockUnique, Effect.deleteTiles n, Effect.load (fileOf m n) m.parseTimeout,
         Effect.unlockUnique, Effect.asyncMonitor] := by
  rw [onFileSystemEvent_modified Load m n hn]
  have hfail' : Load (fileOf (onRemovedStylesheet m n).1 n) (onRemovedStylesheet m n).1.parseTimeout
        = LoadResult.parseException ∨
      Load (fileOf (onRemovedStylesheet m n).1 n) (onRemovedStylesheet m n).1.parseTimeout
        = LoadResult.timeoutException := hfail
  rw [onNewStylesheet_failed Load _ n hfail']
  exact ⟨fun k => onRemovedStylesheet_find? m n k, by simp [onRemovedStylesheet, fileOf]⟩

/-- C8: the start-up scan isolates failures. For any directory listing and any loader, after
`startStylesheetObserving` on a freshly constructed manager every regular `.mapcss` file
whose load returned a stylesheet has that stylesheet stored under its stem, wherever the
failing files stand in the listing; a regular `.mapcss` file whose load threw has no entry
under its stem, and a name that is the stem of no regular `.mapcss` file has no entry (the
reserved key apart, which keeps an entry in any case). -/
theorem startup_scan_isolates_failures (fallback : σ) (Load : Loader σ) (dir : List DirEntry)
    (folder : String) (timeout : Int) :
    (∀ e ∈ dir, e.isRegularFile = true → extension e.name = ".mapcss" →
      ∀ s : σ, Load (pathAppend folder e.name) timeout = LoadResult.ok s →
        (startStylesheetObserving fallback Load dir
          (StylesheetManager.new folder timeout)).1.parsedStylesheets.find? (stem e.name)
          = some (some s)) ∧
    (∀ e ∈ dir, e.isRegularFile = true → extension e.name = ".mapcss" →
      (∀ s : σ, Load (pathAppend folder e.name) timeout ≠ LoadResult.ok s) →
      stem e.name ≠ ".fallback" →
        (startStylesheetObserving fallback Load dir
          (StylesheetManager.new folder timeout)).1.parsedStylesheets.find? (stem e.name)
          = none) ∧
    (∀ k : String, k ≠ ".fallback" →
      (∀ e ∈ dir, e.isRegularFile = true → extension e.name = ".mapcss" → stem e.name ≠ k) →
        (startStylesheetObserving fallback Load dir
          (StylesheetManager.new folder timeout)).1.parsedStylesheets.find? k = none) := by
  refine ⟨?_, ?_, ?_⟩
  · intro e he hreg hext s hs
    unfold startStylesheetObserving
    apply scanDirectory_loaded Load dir (stem e.name) s
    · simpa [fileOf, StylesheetManager.new, stem_append_of_extension hext] using hs
    · exact ⟨e, he, hreg, hext, rfl⟩
  · intro e he hreg hext hs hne
    unfold startStylesheetObserving
    rw [scanDirectory_failed Load dir (stem e.name)]
    · simp [StylesheetManager.new, StyleMap.find?_assign, hne, StyleMap.erase, StyleMap.find?]
    · simpa [fileOf, StylesheetManager.new, stem_append_of_extension hext] using hs
  · intro k hk hno
    unfold startStylesheetObserving
    rw [scanDirectory_untouched Load dir k _ hno]
    simp [StylesheetManager.new, StyleMap.find?_assign, hk, StyleMap.erase, StyleMap.find?]

/-- C10, as amended: when an `added` or `modified` event for a file `n.mapcss` that is not
hidden is handled, the write lock is taken first and the call of `Stylesheet::Load` is made
while it is held: the lock precedes the load, it is not released between the two, and it is
released only at the end of the dispatch. -/
theorem load_under_write_lock (Load : Loader σ) (m : StylesheetManager σ) (n : String)
    (ty : EventType) (hn : findDotNotAtZero n = true)
    (hty : ty = EventType.added ∨ ty = EventType.modified) :
    ∃ before after : List Effect,
      (onFileSystemEvent Load m ErrorCode.success ⟨ty, n ++ ".mapcss"⟩).2
        = [Effect.lockUnique] ++ before ++ [Effect.load (fileOf m n) m.parseTimeout] ++ after
            ++ [Effect.unlockUnique, Effect.asyncMonitor] ∧
      Effect.unlockUnique ∉ before ∧ Effect.unlockUnique ∉ after ∧
      Effect.lockUnique ∉ before ∧ Effect.lockUnique ∉ after := by
  rcases hty with rfl | rfl
  · rw [onFileSystemEvent_added Load m n hn]
    cases hl : Load (fileOf m n) m.parseTimeout with
    | ok s =>
      rw [onNewStylesheet_ok Load m n s hl]
      exact ⟨[], [Effect.enqueue ⟨TileIdentifier.mk 0 0 0 n Format.PNG⟩], by simp⟩
    | parseException =>
      rw [onNewStylesheet_failed Load m n (Or.inl hl)]
      exact ⟨[], [], by simp⟩
    | timeoutException =>
      rw [onNewStylesheet_failed Load m n (Or.inr hl)]
      exact ⟨[], [], by simp⟩
  · rw [onFileSystemEvent_modified Load m n hn]
    have hcfg : fileOf (onRemovedStylesheet m n).1 n = fileOf m n ∧
        (onRemovedStylesheet m n).1.parseTimeout = m.parseTimeout := ⟨rfl, rfl⟩
    cases hl : Load (fileOf m n) m.parseTimeout with
    | ok s =>
      have hl' : Load (fileOf (onRemovedStylesheet m n).1 n)
          (onRemovedStylesheet m n).1.parseTimeout = LoadResult.ok s := hl
      rw [onNewStylesheet_ok Load _ n s hl']
      exact ⟨[Effect.deleteTiles n], [Effect.enqueue ⟨TileIdentifier.mk 0 0 0 n Format.PNG⟩],
        by simp [onRemovedStylesheet, fileOf]⟩
    | parseException =>
      have hl' : Load (fileOf (onRemovedStylesheet m n).1 n)
          (onRemovedStylesheet m n).1.parseTimeout = LoadResult.parseException := hl
      rw [onNewStylesheet_failed Load _ n (Or.inl hl')]
      exact ⟨[Effect.deleteTiles n], [], by simp [onRemovedStylesheet, fileOf]⟩
    | timeoutException =>
      have hl' : Load (fileOf (onRemovedStylesheet m n).1 n)
          (onRemovedStylesheet m n).1.parseTimeout = LoadResult.timeoutException := hl
      rw [onNewStylesheet_failed Load _ n (Or.inr hl')]
      exact ⟨[Effect.deleteTiles n], [], by simp [onRemovedStylesheet, fileOf]⟩

end ManagerClaims

/-- C3, counterexample: in the manager state after a start-up that loaded `a.mapcss`, the
name `a` is bound to the stylesheet `1`; after a `modified` event for `a.mapcss` whose load
times out the name `a` has no entry, so the previous version did not stay loaded, and the
tiles of `a` were deleted from the cache. -/
theorem modified_timeout_counterexample :
    sampleManager.parsedStylesheets.find? "a" = some (some 1) ∧
    (StylesheetManager.onFileSystemEvent (fun _ _ => LoadResult.timeoutException) sampleManager
      ErrorCode.success ⟨EventType.modified, "a.mapcss"⟩).1.parsedStylesheets.find? "a" = none ∧
    deletedTiles (StylesheetManager.onFileSystemEvent (fun _ _ => LoadResult.timeoutException)
      sampleManager ErrorCode.success ⟨EventType.modified, "a.mapcss"⟩).2 = ["a"] := by
  decide

/-- The amended C3 at the sample manager: a timed out reload of `a.mapcss`. -/
theorem modified_event_failed_load_witness :
    findDotNotAtZero "a" = true ∧
    (StylesheetManager.onFileSystemEvent (fun _ _ => LoadResult.timeoutException) sampleManager
      ErrorCode.success ⟨EventType.modified, "a" ++ ".mapcss"⟩).1.parsedStylesheets.find? "a"
      = none ∧
    (StylesheetManager.onFileSystemEvent (fun _ _ => LoadResult.timeoutException) sampleManager
      ErrorCode.success ⟨EventType.modified, "a" ++ ".mapcss"⟩).1.parsedStylesheets.find?
      ".fallback" = some (some 0) :=
  have h := modified_event_failed_load (fun _ _ => LoadResult.timeoutException) sampleManager "a"
    (by decide) (Or.inr rfl)
  ⟨by decide, by simpa using h.1 "a", (h.1 ".fallback").trans (by decide)⟩

/-- C6 at the sample manager: `b.mapcss` is added and loads to the stylesheet `2`. -/
theorem added_event_witness :
    findDotNotAtZero "b" = true ∧
    (StylesheetManager.onFileSystemEvent (fun _ _ => LoadResult.ok 2) sampleManager
      ErrorCode.success ⟨EventType.added, "b" ++ ".mapcss"⟩).1.parsedStylesheets.find? "b"
      = some (some 2) ∧
    enqueuedJobs (StylesheetManager.onFileSystemEvent (fun _ _ => LoadResult.ok 2) sampleManager
      ErrorCode.success ⟨EventType.added, "b" ++ ".mapcss"⟩).2
      = [⟨TileIdentifier.mk 0 0 0 "b" Format.PNG⟩] :=
  have h := (added_event (fun _ _ => LoadResult.ok 2) sampleManager "b" (by decide)).1 2 rfl
  ⟨by decide, by simpa using h.1 "b", h.2⟩

/-- C7 at the sample manager: `a.mapcss` is removed. -/
theorem removed_event_witness :
    findDotNotAtZero "a" = true ∧
    (StylesheetManager.onFileSystemEvent (fun _ _ => LoadResult.parseException) sampleManager
      ErrorCode.success ⟨EventType.removed, "a" ++ ".mapcss"⟩).1.parsedStylesheets.find? "a"
      = none ∧
    deletedTiles (StylesheetManager.onFileSystemEvent (fun _ _ => LoadResult.parseException)
      sampleManager ErrorCode.success ⟨EventType.removed, "a" ++ ".mapcss"⟩).2 = ["a"] :=
  have h := removed_event (fun _ _ => LoadResult.parseException) sampleManager "a" (by decide)
  ⟨by decide, by simpa using h.1 "a", h.2.2⟩

/-- C8 at the sample directory: `a` and `b` are loaded although a broken file stands before
them and a slow one between them; the broken and the slow file have no entry. -/
theorem startup_scan_isolates_failures_witness :
    (StylesheetManager.startStylesheetObserving 0 sampleLoader sampleDirectory
      (StylesheetManager.new "styles" 750)).1.parsedStylesheets.find? "a" = some (some 1) ∧
    (StylesheetManager.startStylesheetObserving 0 sampleLoader sampleDirectory
      (StylesheetManager.new "styles" 750)).1.parsedStylesheets.find? "b" = some (some 2) ∧
    (StylesheetManager.startStylesheetObserving 0 sampleLoader sampleDirectory
      (StylesheetManager.new "styles" 750)).1.parsedStylesheets.find? "slow" = none ∧
    (StylesheetManager.startStylesheetObserving 0 sampleLoader sampleDirectory
      (StylesheetManager.new "styles" 750)).1.parsedStylesheets.find? "broken" = none :=
  have h := startup_scan_isolates_failures 0 sampleLoader sampleDirectory "styles" 750
  ⟨h.1 ⟨"a.mapcss", true⟩ (by decide) rfl (by decide) 1 (by decide),
   h.1 ⟨"b.mapcss", true⟩ (by decide) rfl (by decide) 2 (by decide),
   h.2.1 ⟨"slow.mapcss", true⟩ (by decide) rfl (by decide)
     (fun _ hs => LoadResult.noConfusion
       ((show sampleLoader (pathAppend "styles" "slow.mapcss") 750
           = LoadResult.timeoutException by decide).symm.trans hs)) (by decide),
   h.2.1 ⟨"broken.mapcss", true⟩ (by decide) rfl (by decide)
     (fun _ hs => LoadResult.noConfusion
       ((show sampleLoader (pathAppend "styles" "broken.mapcss") 750
           = LoadResult.parseException by decide).symm.trans hs)) (by decide)⟩

/-- The lookups of C1 evaluated at the sample manager: an unknown name resolves to the
fallback stylesheet `0`, the name `a` to its own stylesheet `1`. -/
theorem getStylesheet_sample :
    (sampleManager.getStylesheet "unknown-name").1 = some 0 ∧
    (sampleManager.getStylesheet "a").1 = some 1 ∧
    (sampleManager.hasStylesheet "unknown-name").1 = false ∧
    (sampleManager.hasStylesheet ".fallback").1 = true := by
  decide

/-- C10, counterexample: the effects of handling an `added` event for `a.mapcss`. The write
lock is taken first; the call of `Stylesheet::Load` comes after it and before the lock is
released, so the load is not performed before the write lock is acquired. -/
theorem load_before_lock_counterexample :
    (StylesheetManager.onFileSystemEvent (fun _ _ => LoadResult.ok 2) sampleManager
      ErrorCode.success ⟨EventType.added, "a.mapcss"⟩).2
      = [Effect.lockUnique, Effect.load "styles/a.mapcss" 750,
         Effect.enqueue ⟨TileIdentifier.mk 0 0 0 "a" Format.PNG⟩,
         Effect.unlockUnique, Effect.asyncMonitor] ∧
    List.indexOf Effect.lockUnique (StylesheetManager.onFileSystemEvent
        (fun _ _ => LoadResult.ok 2) sampleManager ErrorCode.success
        ⟨EventType.added, "a.mapcss"⟩).2
      < List.indexOf (Effect.load "styles/a.mapcss" 750) (StylesheetManager.onFileSystemEvent
        (fun _ _ => LoadResult.ok 2) sampleManager ErrorCode.success
        ⟨EventType.added, "a.mapcss"⟩).2 := by
  decide

/-- The amended C10 at the sample manager: `a.mapcss` is modified and loads again. -/
theorem load_under_write_lock_witness :
    findDotNotAtZero "a" = true ∧
    ∃ before after : List Effect,
      (StylesheetManager.onFileSystemEvent (fun _ _ => LoadResult.ok 2) sampleManager
        ErrorCode.success ⟨EventType.modified, "a" ++ ".mapcss"⟩).2
        = [Effect.lockUnique] ++ before
            ++ [Effect.load (sampleManager.fileOf "a") sampleManager.parseTimeout] ++ after
            ++ [Effect.unlockUnique, Effect.asyncMonitor] ∧
      Effect.unlockUnique ∉ before ∧ Effect.unlockUnique ∉ after ∧
      Effect.lockUnique ∉ before ∧ Effect.lockUnique ∉ after :=
  ⟨by decide, load_under_write_lock (fun _ _ => LoadResult.ok 2) sampleManager "a"
    EventType.modified (by decide) (Or.inr rfl)⟩

/-! ## Facts about the extraction -/

theorem digitChar_facts (d : Nat) (h : d < 10) :
    (Nat.digitChar d).isDigit = true ∧ digitValue (Nat.digitChar d) = d ∧
      isSpace (Nat.digitChar d) = false ∧ Nat.digitChar d ≠ '-' ∧ Nat.digitChar d ≠ '+' := by
  interval_cases d <;> decide

theorem takeSign_cons (c : Char) (cs : List Char) (h₁ : c ≠ '-') (h₂ : c ≠ '+') :
    takeSign (c :: cs) = (false, c :: cs) := by
  unfold takeSign
  split
  · simp_all
  · simp_all
  · rfl

theorem natText_mem (k : Nat) : ∀ c ∈ natText k, ∃ d, d < 10 ∧ c = Nat.digitChar d := by
  intro c hc
  unfold natText at hc
  split at hc
  · exact ⟨0, by decide, by simpa using hc⟩
  · simp only [List.mem_map, List.mem_reverse] at hc
    obtain ⟨d, hd, rfl⟩ := hc
    exact ⟨d, Nat.digits_lt_base (by decide) hd, rfl⟩

theorem natText_ne_nil (k : Nat) : natText k ≠ [] := by
  unfold natText
  split
  · simp
  · rename_i hk
    simp [Nat.digits_ne_nil_iff_ne_zero, hk]

theorem digitsValue_digits (ds : List Nat) (h : ∀ d ∈ ds, d < 10) :
    digitsValue (ds.reverse.map Nat.digitChar) = Nat.ofDigits 10 ds := by
  induction ds with
  | nil => simp [digitsValue]
  | cons d ds ih =>
    have hd := (digitChar_facts d (h d (List.mem_cons_self _ _))).2.1
    have ih₁ := ih (fun x hx => h x (List.mem_cons_of_mem _ hx))
    unfold digitsValue at ih₁ ⊢
    simp only [List.reverse_cons, List.map_append, List.map_cons, List.map_nil,
      List.foldl_append, List.foldl_cons, List.foldl_nil, ih₁, hd, Nat.ofDigits_cons]
    ring

theorem digitsValue_natText (k : Nat) : digitsValue (natText k) = k := by
  unfold natText
  split
  · rename_i hk
    subst hk
    decide
  · rw [digitsValue_digits _ (fun d hd => Nat.digits_lt_base (by decide) hd), Nat.ofDigits_digits]

theorem takeWhile_natText (k : Nat) : (natText k).takeWhile Char.isDigit = natText k := by
  rw [List.takeWhile_eq_self_iff]
  intro c hc
  obtain ⟨d, hd, rfl⟩ := natText_mem k c hc
  exact (digitChar_facts d hd).1

theorem natText_head (k : Nat) :
    ∃ c cs, natText k = c :: cs ∧ isSpace c = false ∧ c ≠ '-' ∧ c ≠ '+' := by
  cases h : natText k with
  | nil => exact absurd h (natText_ne_nil k)
  | cons c cs =>
    obtain ⟨d, hd, rfl⟩ := natText_mem k c (by rw [h]; exact List.mem_cons_self _ _)
    have hf := digitChar_facts d hd
    exact ⟨_, cs, rfl, hf.2.2.1, hf.2.2.2.1, hf.2.2.2.2⟩

/-- The extraction reads the decimal text of an integer in the range of `int` back without
setting a flag. -/
theorem extractInt_decimalText (n : Int) (hmin : INT_MIN ≤ n) (hmax : n ≤ INT_MAX) :
    extractInt (decimalText n) = (n, { badbit := false, failbit := false }) := by
  obtain ⟨c, cs, hcs, hsp, hm, hp⟩ := natText_head n.natAbs
  have htw := takeWhile_natText n.natAbs
  have hval := digitsValue_natText n.natAbs
  have hne := natText_ne_nil n.natAbs
  have h1 : ¬ (INT_MAX < n) := by omega
  have h2 : ¬ (n < INT_MIN) := by omega
  unfold extractInt
  by_cases hneg : n < 0
  · have hdata : (decimalText n).data = '-' :: natText n.natAbs := by simp [decimalText, hneg]
    have hdrop : List.dropWhile isSpace ('-' :: natText n.natAbs) = '-' :: natText n.natAbs := by
      rw [List.dropWhile_cons_of_neg (by decide)]
    have hsign : takeSign ('-' :: natText n.natAbs) = (true, natText n.natAbs) := rfl
    simp only [hdata, hdrop, hsign, htw, hval, hne, if_false, if_true]
    have habs : ((n.natAbs : Nat) : Int) = -n := by omega
    rw [habs]
    simp [h1, h2]
  · have hdata : (decimalText n).data = natText n.natAbs := by simp [decimalText, hneg]
    have hdrop : List.dropWhile isSpace (natText n.natAbs) = natText n.natAbs := by
      rw [hcs, List.dropWhile_cons_of_neg (by simp [hsp])]
    have hsign : takeSign (natText n.natAbs) = (false, natText n.natAbs) := by
      rw [hcs]; exact takeSign_cons c cs hm hp
    simp only [hdata, hdrop, hsign, htw, hval, hne, if_false]
    have habs : ((n.natAbs : Nat) : Int) = n := by omega
    rw [habs]
    simp [h1, h2]

/-- The stream of the selector is never `bad()`. -/
theorem extractInt_not_bad (text : String) : (extractInt text).2.bad = false := by
  unfold extractInt StreamState.bad
  dsimp only
  split_ifs <;> rfl

/-! ## The claims about `TagSmallerEqualsSelector` -/

/-- C2, evaluation at the failing input: the extraction from `not-a-number` stores `0` and
sets `failbit` but not `badbit`, and the selector on tag `level` with threshold `0` calls
`next` for the node, for the way and for the relation that carry `level=not-a-number`. -/
theorem not_a_number_is_forwarded :
    extractInt "not-a-number" = (0, { badbit := false, failbit := true }) ∧
    TagSmallerEqualsSelector.matchNode ⟨"level", 0⟩ sampleGeodata ⟨0⟩ (some sampleTile) ⟨7⟩
      = some [NextCall.matchNode ⟨0⟩ (some sampleTile) ⟨7⟩] ∧
    TagSmallerEqualsSelector.matchWay ⟨"level", 0⟩ sampleGeodata ⟨0⟩ (some sampleTile) ⟨7⟩
      = some [NextCall.matchWay ⟨0⟩ (some sampleTile) ⟨7⟩] ∧
    TagSmallerEqualsSelector.matchRelation ⟨"level", 0⟩ sampleGeodata ⟨0⟩ (some sampleTile) ⟨7⟩
      = some [NextCall.matchRelation ⟨0⟩ (some sampleTile) ⟨7⟩] := by
  decide

/-- C5, evaluation at the failing input: the value `abc` of the tag `layer` of the sample way
does not convert to an integer (the extraction sets `failbit`), and the selector on `layer`
with threshold `3` still calls `next` once. -/
theorem unparsed_value_is_forwarded :
    (sampleGeodata.getWay ⟨0⟩).map (fun way => way.tags.find? "layer") = some (some "abc") ∧
    (extractInt "abc").2.failbit = true ∧
    TagSmallerEqualsSelector.matchWay ⟨"layer", 3⟩ sampleGeodata ⟨0⟩ (some sampleTile) ⟨7⟩
      = some [NextCall.matchWay ⟨0⟩ (some sampleTile) ⟨7⟩] := by
  decide

/-- The part of C5 that the code does satisfy. For a node, a way and a relation alike: when
the tag of the selector is absent `next` is not called, and when its value is the decimal
text of an integer `n` in the range of `int`, `next` is called exactly once, with the same
identifier, tile identifier and attributes pointer, if `n ≤ value`, and not at all
otherwise. -/
theorem forwards_on_decimal_values {NodesTree WaysTree RelTree : Type}
    (sel : TagSmallerEqualsSelector) (geodata : Geodata NodesTree WaysTree RelTree)
    (ti : Option TileIdentifier) (attributes : RenderAttributesPtr) :
    (∀ (nodeID : NodeId) (node : Node), geodata.getNode nodeID = some node →
      (node.tags.find? sel.tag = none → sel.matchNode geodata nodeID ti attributes = some []) ∧
      (∀ n : Int, INT_MIN ≤ n → n ≤ INT_MAX → node.tags.find? sel.tag = some (decimalText n) →
        sel.matchNode geodata nodeID ti attributes
          = some (if n ≤ sel.value then [NextCall.matchNode nodeID ti attributes] else []))) ∧
    (∀ (wayID : WayId) (way : Way), geodata.getWay wayID = some way →
      (way.tags.find? sel.tag = none → sel.matchWay geodata wayID ti attributes = some []) ∧
      (∀ n : Int, INT_MIN ≤ n → n ≤ INT_MAX → way.tags.find? sel.tag = some (decimalText n) →
        sel.matchWay geodata wayID ti attributes
          = some (if n ≤ sel.value then [NextCall.matchWay wayID ti attributes] else []))) ∧
    (∀ (relID : RelId) (relation : Relation), geodata.getRelation relID = some relation →
      (relation.tags.find? sel.tag = none →
        sel.matchRelation geodata relID ti attributes = some []) ∧
      (∀ n : Int, INT_MIN ≤ n → n ≤ INT_MAX →
        relation.tags.find? sel.tag = some (decimalText n) →
        sel.matchRelation geodata relID ti attributes
          = some (if n ≤ sel.value then [NextCall.matchRelation relID ti attributes] else []))) := by
  refine ⟨?_, ?_, ?_⟩
  · intro nodeID node hget
    refine ⟨fun habs => by simp [TagSmallerEqualsSelector.matchNode, hget, habs], ?_⟩
    intro n hmin hmax htag
    simp only [TagSmallerEqualsSelector.matchNode, hget, htag, extractInt_decimalText n hmin hmax,
      StreamState.bad]
    by_cases h : n ≤ sel.value <;> simp [h]
  · intro wayID way hget
    refine ⟨fun habs => by simp [TagSmallerEqualsSelector.matchWay, hget, habs], ?_⟩
    intro n hmin hmax htag
    simp only [TagSmallerEqualsSelector.matchWay, hget, htag, extractInt_decimalText n hmin hmax,
      StreamState.bad]
    by_cases h : n ≤ sel.value <;> simp [h]
  · intro relID relation hget
    refine ⟨fun habs => by simp [TagSmallerEqualsSelector.matchRelation, hget, habs], ?_⟩
    intro n hmin hmax htag
    simp only [TagSmallerEqualsSelector.matchRelation, hget, htag,
      extractInt_decimalText n hmin hmax, StreamState.bad]
    by_cases h : n ≤ sel.value <;> simp [h]

/-- The selector calls `next` exactly when the tag is present and the value stored by the
extraction is at most the threshold; the state of the stream plays no part. -/
theorem matchNode_calls_next_iff {NodesTree WaysTree RelTree : Type}
    (sel : TagSmallerEqualsSelector) (geodata : Geodata NodesTree WaysTree RelTree)
    (nodeID : NodeId) (node : Node) (ti : Option TileIdentifier)
    (attributes : RenderAttributesPtr) (hget : geodata.getNode nodeID = some node) :
    sel.matchNode geodata nodeID ti attributes = some [NextCall.matchNode nodeID ti attributes]
      ↔ ∃ second, node.tags.find? sel.tag = some second ∧ (extractInt second).1 ≤ sel.value := by
  unfold TagSmallerEqualsSelector.matchNode
  rw [hget]
  cases htag : node.tags.find? sel.tag with
  | none => simp [htag]
  | some second =>
    by_cases h : (extractInt second).1 ≤ sel.value <;> simp [htag, extractInt_not_bad, h]

/-! ## The claims about the serialisation of `Geodata` -/

/-- C9, counterexample: the serialised form of the sample data set contains its node tree and
is not the list of its three feature collections. -/
theorem serialize_counterexample :
    ArchiveItem.nodesTree sampleGeodata.nodesTree ∈ sampleGeodata.serialize [] 0 ∧
    sampleGeodata.serialize [] 0
      ≠ [ArchiveItem.nodes sampleGeodata.nodes, ArchiveItem.ways sampleGeodata.ways,
         ArchiveItem.relations sampleGeodata.relations] := by
  decide

/-- C9, as amended: the serialised form produced by `serialize` consists of the three feature
collections followed by the three spatial index trees, in the order `nodes`, `ways`,
`relations`, `nodesTree`, `waysTree`, `relTree`; exactly three of the six items are trees. -/
theorem serialize_writes_collections_and_trees {NodesTree WaysTree RelTree : Type}
    (g : Geodata NodesTree WaysTree RelTree)
    (ar : List (ArchiveItem NodesTree WaysTree RelTree)) (version : Nat) :
    g.serialize ar version
      = ar ++ [ArchiveItem.nodes g.nodes, ArchiveItem.ways g.ways,
          ArchiveItem.relations g.relations, ArchiveItem.nodesTree g.nodesTree,
          ArchiveItem.waysTree g.waysTree, ArchiveItem.relTree g.relTree] ∧
    (g.serialize [] version).filter ArchiveItem.isTree
      = [ArchiveItem.nodesTree g.nodesTree, ArchiveItem.waysTree g.waysTree,
          ArchiveItem.relTree g.relTree] := by
  constructor
  · simp [Geodata.serialize]
  · simp [Geodata.serialize, List.filter, ArchiveItem.isTree]

end Alacarte
